import Mathlib

/-
Verification of the pandas compatibility layer in dataviews/interface.py.
The module wraps a pandas DataFrame in a DFrameView, offers selection and
slicing, exports the frame into Table or HeatMap views, and filters style
options for the plot adapter.  Frames are modelled shallowly: a list of
column names plus a list of (row label, cell values) entries, with integer
cells and integer row labels.  Fallible pandas operations (missing column,
missing row label, empty tuple indexing) are modelled with Option.
-/

/-- A pandas DataFrame: named columns and rows carrying an index label. -/
structure DataFrame where
  columns : List String
  entries : List (Int × List Int)
deriving DecidableEq

/-- The index of the frame: the list of row labels, in row order. -/
def DataFrame.index (df : DataFrame) : List Int :=
  df.entries.map Prod.fst

/-- Label-based row access, as in stack_group.loc of the source: the first
row whose label matches, none when the label is absent (pandas KeyError). -/
def lookupRow (df : DataFrame) (ind : Int) : Option (List Int) :=
  (df.entries.find? (fun e => e.1 == ind)).map Prod.snd

/-- Label-based cell access within a row: position of the column name, then
the cell at that position; none when the column is absent. -/
def cellVal (cols : List String) (row : List Int) (d : String) : Option Int :=
  (cols.findIdx? (fun c => c == d)).map (fun i => row.getD i 0)

/-- A selection criterion of DFrameView.select: either a scalar for exact
equality, or an open range from a slice, kept with both bounds strict as in
the source line (k.start < df[dim]) and (df[dim] < k.stop). -/
inductive Criterion where
  | scalar (v : Int)
  | openRange (lo hi : Int)
deriving DecidableEq

/-- The row predicate of one criterion, as the source builds the boolean
mask: equality for a scalar, strict bounds for a slice. -/
def critPred (c : Criterion) (x : Int) : Bool :=
  match c with
  | .scalar v => x == v
  | .openRange lo hi => (decide (lo < x)) && (decide (x < hi))

/-- One step of the select loop: df = df[mask].  Fails when the named
dimension is not a column of the frame. -/
def applyCriterion (df : DataFrame) (d : String) (c : Criterion) : Option DataFrame :=
  match df.columns.findIdx? (fun col => col == d) with
  | none => none
  | some i => some ⟨df.columns, df.entries.filter (fun e => critPred c (e.2.getD i 0))⟩

/-- DFrameView.select: the criteria are applied one after the other to the
running frame, each narrowing the rows. -/
def DFrameView_select (df : DataFrame) (crits : List (String × Criterion)) : Option DataFrame :=
  crits.foldlM (fun acc p => applyCriterion acc p.1 p.2) df

/-- The wrapper itself: a label, the dimension labels, and the wrapped
frame. -/
structure DFrameView where
  label : String
  dimensionLabels : List String
  data : DataFrame
deriving DecidableEq

/-- Number of dimensions of the wrapper. -/
def DFrameView.ndims (w : DFrameView) : Nat :=
  w.dimensionLabels.length

/-- Outcome of DFrameView.__getitem__: the wrapper returned itself without
cloning, or produced a fresh clone over a selected frame, or raised
KeyError on an arity mismatch, or raised inside select on a missing
dimension. -/
inductive GetItemResult where
  | itself
  | view (w : DFrameView)
  | keyError (key : List Int)
  | dimError
deriving DecidableEq

/-- DFrameView.__getitem__: the empty key returns self, a key of full arity
is zipped with the dimension labels and handed to select, any other arity
raises KeyError. -/
def DFrameView_getitem (w : DFrameView) (key : List Int) : GetItemResult :=
  if key = [] then .itself
  else if key.length = w.ndims then
    match DFrameView_select w.data ((w.dimensionLabels.zip key).map (fun p => (p.1, Criterion.scalar p.2))) with
    | some df => .view ⟨w.label, w.dimensionLabels, df⟩
    | none => .dimError
  else .keyError key

/-- Data handed to the constructor: a real DataFrame or anything else. -/
inductive PyData where
  | frame (df : DataFrame)
  | other (desc : String)
deriving DecidableEq

/-- The class of the raised Python error. -/
inductive PyErrorClass where
  | typeError
  | exception
  | keyError
deriving DecidableEq

/-- DFrameView.__init__: accepts a pandas DataFrame, and for any other data
raises the built-in generic Exception (the source line reads raise
Exception with a message, not raise TypeError). -/
def DFrameView_init (data : PyData) (label : String) (dims : List String) : Except PyErrorClass DFrameView :=
  match data with
  | .frame df => .ok ⟨label, dims, df⟩
  | .other _ => .error .exception

/-- A heap of mutable frames, to state aliasing facts: a wrapper holds a
reference (position) into the store. -/
structure Store where
  frames : List DataFrame
deriving DecidableEq

/-- Read the frame a reference points to. -/
def Store.readFrame (s : Store) (r : Nat) : Option DataFrame :=
  s.frames.get? r

/-- DFrameView.dframe: returns self.data.copy(), modelled as allocating a
fresh cell holding the same contents and returning its reference. -/
def dframeStore (s : Store) (r : Nat) : Store × Nat :=
  (⟨s.frames ++ [(s.readFrame r).getD ⟨[], []⟩]⟩, s.frames.length)

/-- A caller mutating the frame behind a reference, in the most general
way: overwriting it with arbitrary new contents. -/
def mutateStore (s : Store) (r : Nat) (df : DataFrame) : Store :=
  ⟨s.frames.set r df⟩

/-- A key of the export dictionary: the bare value-dimension name (reduce
branch with no view dimensions), a bare value (a 1-tuple unwrapped by the
index branch), or a tuple of values. -/
inductive DKey where
  | str (s : String)
  | int (v : Int)
  | tup (vs : List Int)
deriving DecidableEq

/-- The unwrapping at the end of the index branch: key if len(key) > 1 else
key[0]; an empty tuple makes key[0] raise IndexError, hence none. -/
def mkKey (kl : List Int) : Option DKey :=
  match kl with
  | [] => none
  | [v] => some (.int v)
  | vs => some (.tup vs)

/-- The leading component of a key, when it has one. -/
def keyHead (k : DKey) : Option Int :=
  match k with
  | .int v => some v
  | .tup (v :: _) => some v
  | _ => none

/-- Assignment temp_dict[key] = v on an ordered dictionary: replace the
value in place when the key exists, append otherwise. -/
def odInsert (acc : List (DKey × Int)) (k : DKey) (v : Int) : List (DKey × Int) :=
  match acc with
  | [] => [(k, v)]
  | (k0, v0) :: rest => if k0 = k then (k0, v) :: rest else (k0, v0) :: odInsert rest k v

/-- temp_dict[key].append(v) on a defaultdict of lists, keeping first
insertion order of keys. -/
def addToKey (acc : List (DKey × List Int)) (k : DKey) (v : Int) : List (DKey × List Int) :=
  match acc with
  | [] => [(k, [v])]
  | (k0, vs) :: rest => if k0 = k then (k0, vs ++ [v]) :: rest else (k0, vs) :: addToKey rest k v

/-- The key a row gets in the reduce branch: the tuple of its view
dimension cells by position, or the bare value dimension name when there
are no view dimensions.  No 1-tuple unwrapping happens in this branch. -/
def rowKeyOf (value_dim : String) (view_dims : List String) (vdimInds : List Nat) (row : List Int) : DKey :=
  if view_dims.isEmpty then .str value_dim
  else .tup (vdimInds.map (fun i => row.getD i 0))

/-- The reduce branch of _export_dataview: positions of the value and view
dimension columns are computed, the rows are collated per key in row
order, and reduce_fn is applied to each collected list. -/
def reduceBranch (group : DataFrame) (value_dim : String) (view_dims : List String) (fn : List Int → Int) : Option (List (DKey × Int)) :=
  match group.columns.findIdx? (fun c => c == value_dim) with
  | none => none
  | some valIdx =>
    match view_dims.mapM (fun d => group.columns.findIdx? (fun c => c == d)) with
    | none => none
    | some vdimInds =>
      let collated := group.entries.foldl
        (fun acc e => addToKey acc (rowKeyOf value_dim view_dims vdimInds e.2) (e.2.getD valIdx 0)) []
      some (collated.map (fun p => (p.1, fn p.2)))

/-- The loop of the index branch: for each row label, the view dimension
cells are read with loc, the label is put in front when addIdx holds, the
key is unwrapped, and the value cell is stored in the ordered dict. -/
def indexLoop (g : DataFrame) (value_dim : String) (view_dims : List String) (addIdx : Bool) : List Int → List (DKey × Int) → Option (List (DKey × Int))
  | [], acc => some acc
  | ind :: rest, acc =>
    match lookupRow g ind with
    | none => none
    | some row =>
      match view_dims.mapM (fun d => cellVal g.columns row d) with
      | none => none
      | some kl0 =>
        match mkKey (if addIdx then ind :: kl0 else kl0) with
        | none => none
        | some k =>
          match cellVal g.columns row value_dim with
          | none => none
          | some v => indexLoop g value_dim view_dims addIdx rest (odInsert acc k v)

/-- The rebinding indices = indices if indices else list(stack_group.index)
performed when len(indices) != 1: empty indices become the row labels of
the group, anything else stays. -/
def effectiveIndices (indices : List Int) (group : DataFrame) : List Int :=
  if indices.isEmpty then group.index else indices

/-- The index branch of _export_dataview on one group: the effective
indices are computed, and the leading Index component is added exactly
when their count differs from one. -/
def indexBranch (g : DataFrame) (value_dim : String) (view_dims : List String) (indices : List Int) : Option (List (DKey × Int)) :=
  indexLoop g value_dim view_dims (!((effectiveIndices indices g).length == 1))
    (effectiveIndices indices g) []

/-- Dispatch of _export_dataview on one group: the reduce branch when a
reduce_fn is given (the indices argument is not consulted there), the
index branch otherwise. -/
def exportGroup (g : DataFrame) (value_dim : String) (indices : List Int) (reduce_fn : Option (List Int → Int)) (view_dims : List String) : Option (List (DKey × Int)) :=
  match reduce_fn with
  | some fn => reduceBranch g value_dim view_dims fn
  | none => indexBranch g value_dim view_dims indices

/-- The stack loop of _export_dataview with no reduce_fn.  The groups are
the ordered output of groupby on the stack dimensions (disjoint row label
sets).  The indices variable is a Python local rebound inside the loop, so
the value it takes in one iteration is threaded into the next one. -/
def runGroupsNoReduce (value_dim : String) (view_dims : List String) : List (Option Int × DataFrame) → List Int → Option (List (Option Int × List (DKey × Int)))
  | [], _ => some []
  | (sk, g) :: rest, indices =>
    let eff := effectiveIndices indices g
    match indexLoop g value_dim view_dims (!(eff.length == 1)) eff [] with
    | none => none
    | some td =>
      match runGroupsNoReduce value_dim view_dims rest eff with
      | none => none
      | some out => some ((sk, td) :: out)

/-- Follows the words of the spec, for comparison with runGroupsNoReduce:
with reduce_fn absent and indices empty, every stack group uses exactly
its own row identifiers as the index set. -/
def specRunGroups (value_dim : String) (view_dims : List String) (groups : List (Option Int × DataFrame)) : Option (List (Option Int × List (DKey × Int))) :=
  groups.mapM (fun p => (indexBranch p.2 value_dim view_dims []).map (fun td => (p.1, td)))

/-- The dimension-count guard of heatmap: the chained comparison
1 > len(dims) > 2 of the source means 1 > n and n > 2. -/
def heatmapGuard (n : Nat) : Bool :=
  decide (1 > n) && decide (n > 2)

/-- indices = [index] if index else [] of heatmap: None and the falsy
integer 0 both give the empty list. -/
def heatmapIndices (index : Option Int) : List Int :=
  match index with
  | none => []
  | some i => if i = 0 then [] else [i]

/-- Outcome of the heatmap entry point before the export runs. -/
inductive HeatmapOutcome where
  | validationError
  | export (indices : List Int) (dims : List String)
deriving DecidableEq

/-- The heatmap entry point: compute the indices, test the guard, and hand
the indices and dims to _export_dataview. -/
def heatmapCall (dims : List String) (index : Option Int) : HeatmapOutcome :=
  if heatmapGuard dims.length then .validationError
  else .export (heatmapIndices index) dims

/-- The plot_options table of DFramePlot: the allow-list of style option
names per plot type. -/
def plotOptions (pt : String) : List String :=
  if pt = "plot" then
    ["kind", "stacked", "xerr", "yerr", "share_x", "share_y", "table",
     "style", "secondary_y", "legend", "logx", "logy", "position",
     "colormap", "mark_right"]
  else if pt = "hist" then
    ["column", "by", "grid", "xlabelsize", "xrot", "ylabelsize", "yrot",
     "sharex", "sharey", "hist", "layout"]
  else if pt = "boxplot" then
    ["column", "by", "fontsize", "layout", "grid", "rot"]
  else if pt = "scatter_matrix" then
    ["alpha", "grid", "diagonal", "marker", "range_padding", "hist_kwds",
     "density_kwds"]
  else if pt = "autocorrelation" then ["kwds"]
  else []

/-- The style loop of DFramePlot.__call__: every style key outside the
allow-list is popped after a warning; the rest are kept.  The first
component is the surviving style set, the second the warned names in
iteration order.  The function is total: no style name makes it fail. -/
def processStyles (allowed : List String) : List (String × Int) → List (String × Int) × List String
  | [] => ([], [])
  | (k, v) :: rest =>
    if k ∈ allowed then ((k, v) :: (processStyles allowed rest).1, (processStyles allowed rest).2)
    else ((processStyles allowed rest).1, k :: (processStyles allowed rest).2)

/-- Claim C1: the claim states that a heatmap call with three (or zero)
dims fails with a validation error.  The guard of the source is the
chained comparison 1 > len(dims) > 2, which no integer length satisfies,
so the call never raises the validation error and always proceeds to the
export, for every dimension count. -/
theorem heatmap_guard_never_rejects :
    heatmapCall ["a", "b", "c"] none = HeatmapOutcome.export [] ["a", "b", "c"] ∧
    heatmapCall [] none = HeatmapOutcome.export [] [] ∧
    (∀ (dims : List String) (i : Option Int),
      heatmapCall dims i = HeatmapOutcome.export (heatmapIndices i) dims) := by
  refine ⟨rfl, rfl, fun dims i => ?_⟩
  have h : heatmapGuard dims.length = false := by
    simp only [heatmapGuard, gt_iff_lt, Bool.and_eq_false_iff, decide_eq_false_iff_not, not_lt]
    omega
  simp [heatmapCall, h]

/-- Claim C2: the claim states that with reduce_fn absent and indices
empty each stack group uses exactly its own row identifiers.  In the
source the indices local is rebound inside the stack loop, so the second
group is processed with the row identifiers of the first group: on two
one-row groups with labels 0 and 1 the code raises KeyError (none),
while the per-spec computation, in which each group uses its own row
identifiers, succeeds. -/
theorem export_stack_reuses_first_group_indices :
    runGroupsNoReduce "v" ["a"]
      [(some 1, ⟨["a", "v"], [(0, [1, 10])]⟩),
       (some 2, ⟨["a", "v"], [(1, [2, 20])]⟩)] [] = none ∧
    specRunGroups "v" ["a"]
      [(some 1, ⟨["a", "v"], [(0, [1, 10])]⟩),
       (some 2, ⟨["a", "v"], [(1, [2, 20])]⟩)] =
      some [(some 1, [(DKey.int 1, 10)]), (some 2, [(DKey.int 2, 20)])] :=
  ⟨rfl, rfl⟩

/-- Claim C6: indexing a wrapper with the empty tuple returns the wrapper
itself without cloning, for every wrapper. -/
theorem getitem_empty_key_identity :
    ∀ w : DFrameView, DFrameView_getitem w [] = GetItemResult.itself :=
  fun _ => rfl

/-- Claim C8 counterexample: the claim states that construction from
non-tabular data raises a TypeError-class error; the source raises the
generic built-in Exception, which is not the TypeError class. -/
theorem init_nontabular_error_class_counterexample :
    DFrameView_init (PyData.other "a list") "x" [] = Except.error PyErrorClass.exception ∧
    PyErrorClass.exception ≠ PyErrorClass.typeError :=
  ⟨rfl, by decide⟩

/-- Claim C8 amended: construction from any non-tabular data fails, and
the raised error is the generic Exception class rather than TypeError. -/
theorem init_nontabular_raises_generic_exception :
    ∀ (s label : String) (dims : List String),
      DFrameView_init (PyData.other s) label dims = Except.error PyErrorClass.exception :=
  fun _ _ _ => rfl

/-- Claim C10: in heatmap, index=0 is falsy, so the indices list handed to
the export is empty, exactly as when no index is given; the whole heatmap
call behaves identically in the two cases, and an empty indices list makes
the export use all row identifiers of the group.  A nonzero index is kept
as a singleton list. -/
theorem heatmap_index_zero_like_none :
    heatmapIndices (some 0) = [] ∧
    heatmapIndices (some 0) = heatmapIndices none ∧
    (∀ dims : List String, heatmapCall dims (some 0) = heatmapCall dims none) ∧
    (∀ g : DataFrame, effectiveIndices (heatmapIndices (some 0)) g = g.index) ∧
    heatmapIndices (some 3) = [3] :=
  ⟨rfl, rfl, fun _ => rfl, fun _ => rfl, rfl⟩

/-- Key and warning membership of the style loop, for an arbitrary
allow-list: a name survives exactly when it was present and allowed, and
is warned about exactly when it was present and not allowed. -/
theorem processStyles_mem_keys (allowed : List String) :
    ∀ (style : List (String × Int)) (k : String),
      (k ∈ (processStyles allowed style).1.map Prod.fst ↔
        (k ∈ style.map Prod.fst ∧ k ∈ allowed)) ∧
      (k ∈ (processStyles allowed style).2 ↔
        (k ∈ style.map Prod.fst ∧ k ∉ allowed)) := by
  intro style k
  induction style with
  | nil => simp [processStyles]
  | cons p rest ih =>
    obtain ⟨k0, v0⟩ := p
    by_cases h : k0 ∈ allowed
    · simp only [processStyles, if_pos h, List.map_cons, List.mem_cons]
      refine ⟨?_, ?_⟩
      · rw [ih.1]
        constructor
        · rintro (rfl | ⟨hr, ha⟩)
          · exact ⟨Or.inl rfl, h⟩
          · exact ⟨Or.inr hr, ha⟩
        · rintro ⟨rfl | hr, ha⟩
          · exact Or.inl rfl
          · exact Or.inr ⟨hr, ha⟩
      · rw [ih.2]
        constructor
        · rintro ⟨hr, ha⟩
          exact ⟨Or.inr hr, ha⟩
        · rintro ⟨rfl | hr, ha⟩
          · exact absurd h ha
          · exact ⟨hr, ha⟩
    · simp only [processStyles, if_neg h, List.map_cons, List.mem_cons]
      refine ⟨?_, ?_⟩
      · rw [ih.1]
        constructor
        · rintro ⟨hr, ha⟩
          exact ⟨Or.inr hr, ha⟩
        · rintro ⟨rfl | hr, ha⟩
          · exact absurd ha h
          · exact ⟨hr, ha⟩
      · constructor
        · rintro (rfl | hw)
          · exact ⟨Or.inl rfl, h⟩
          · exact ⟨Or.inr (ih.2.mp hw).1, (ih.2.mp hw).2⟩
        · rintro ⟨rfl | hr, ha⟩
          · exact Or.inl rfl
          · exact Or.inr (ih.2.mpr ⟨hr, ha⟩)

/-- Claim C9: at render time a style option name survives the style loop
exactly when it is in the allow-list of the active plot type, and is
dropped with a warning exactly when it is not; the loop is a total
function, so no unknown option makes the render call fail. -/
theorem style_options_filtered_with_warning :
    ∀ (pt : String) (style : List (String × Int)) (k : String),
      (k ∈ (processStyles (plotOptions pt) style).1.map Prod.fst ↔
        (k ∈ style.map Prod.fst ∧ k ∈ plotOptions pt)) ∧
      (k ∈ (processStyles (plotOptions pt) style).2 ↔
        (k ∈ style.map Prod.fst ∧ k ∉ plotOptions pt)) :=
  fun pt => processStyles_mem_keys (plotOptions pt)

/-- A select call with a single criterion is exactly one filtering step. -/
theorem select_single (df : DataFrame) (d : String) (c : Criterion) :
    DFrameView_select df [(d, c)] = applyCriterion df d c := by
  cases h : applyCriterion df d c <;>
    simp [DFrameView_select, List.foldlM, h]

/-- Claim C5: selecting on a dimension keeps exactly the rows whose cell
in that column equals the scalar, and for a slice criterion exactly the
rows whose cell lies strictly between the bounds. -/
theorem select_scalar_eq_and_range_strict (df : DataFrame) (d : String) (i : Nat)
    (v lo hi : Int) (p : Int × List Int)
    (hd : df.columns.findIdx? (fun c => c == d) = some i) :
    (∀ df1, DFrameView_select df [(d, Criterion.scalar v)] = some df1 →
      (p ∈ df1.entries ↔ (p ∈ df.entries ∧ p.2.getD i 0 = v))) ∧
    (∀ df2, DFrameView_select df [(d, Criterion.openRange lo hi)] = some df2 →
      (p ∈ df2.entries ↔ (p ∈ df.entries ∧ lo < p.2.getD i 0 ∧ p.2.getD i 0 < hi))) := by
  constructor
  · intro df1 h1
    rw [select_single] at h1
    unfold applyCriterion at h1
    rw [hd] at h1
    obtain rfl := (Option.some.inj h1).symm
    simp [List.mem_filter, critPred]
  · intro df2 h2
    rw [select_single] at h2
    unfold applyCriterion at h2
    rw [hd] at h2
    obtain rfl := (Option.some.inj h2).symm
    simp [List.mem_filter, critPred, and_assoc]

/-- Concrete instance of claim C5: on a three row frame, selecting a = 5
keeps exactly the two matching rows, and the first of them is one. -/
theorem select_scalar_eq_and_range_strict_witness :
    (((0 : Int), ([5] : List Int)) ∈ (DataFrame.mk ["a"] [(0, [5]), (2, [5])]).entries ↔
      (((0 : Int), ([5] : List Int)) ∈ (DataFrame.mk ["a"] [(0, [5]), (1, [7]), (2, [5])]).entries ∧
        (((0 : Int), ([5] : List Int)) : Int × List Int).2.getD 0 0 = 5)) ∧
    (((0 : Int), ([5] : List Int)) ∈ (DataFrame.mk ["a"] [(0, [5]), (2, [5])]).entries ↔
      (((0 : Int), ([5] : List Int)) ∈ (DataFrame.mk ["a"] [(0, [5]), (1, [7]), (2, [5])]).entries ∧
        (4 : Int) < (((0 : Int), ([5] : List Int)) : Int × List Int).2.getD 0 0 ∧
        (((0 : Int), ([5] : List Int)) : Int × List Int).2.getD 0 0 < 6)) :=
  ⟨(select_scalar_eq_and_range_strict (DataFrame.mk ["a"] [(0, [5]), (1, [7]), (2, [5])])
      "a" 0 5 4 6 (0, [5]) (by decide)).1 (DataFrame.mk ["a"] [(0, [5]), (2, [5])]) (by decide),
   (select_scalar_eq_and_range_strict (DataFrame.mk ["a"] [(0, [5]), (1, [7]), (2, [5])])
      "a" 0 5 4 6 (0, [5]) (by decide)).2 (DataFrame.mk ["a"] [(0, [5]), (2, [5])]) (by decide)⟩

/-- Claim C7: dframe returns a copy.  Reading the fresh reference yields
the same contents as the wrapped frame, and overwriting the fresh
reference with arbitrary contents leaves the frame behind the original
reference unchanged. -/
theorem dframe_copy_isolated (s : Store) (r : Nat) (df df2 : DataFrame)
    (hr : s.readFrame r = some df) :
    Store.readFrame (mutateStore (dframeStore s r).1 (dframeStore s r).2 df2) r = some df ∧
    Store.readFrame (dframeStore s r).1 (dframeStore s r).2 = some df := by
  have hlen : r < s.frames.length := by
    by_contra hc
    push_neg at hc
    have hnone : s.frames.get? r = none := List.get?_eq_none.mpr hc
    rw [Store.readFrame, hnone] at hr
    cases hr
  constructor
  · show ((s.frames ++ [(s.readFrame r).getD ⟨[], []⟩]).set s.frames.length df2).get? r = some df
    rw [List.get?_set_ne _ _ (by omega : s.frames.length ≠ r)]
    rw [List.get?_append hlen]
    exact hr
  · show (s.frames ++ [(s.readFrame r).getD ⟨[], []⟩]).get? s.frames.length = some _
    rw [List.get?_concat_length]
    rw [hr]
    rfl

/-- Concrete instance of claim C7: a one frame store; after copying and
then overwriting the copy with an empty frame, the original still reads
its old contents, and the copy read right after allocation matches. -/
theorem dframe_copy_isolated_witness :
    Store.readFrame
      (mutateStore (dframeStore ⟨[⟨["a"], [(0, [1])]⟩]⟩ 0).1
        (dframeStore ⟨[⟨["a"], [(0, [1])]⟩]⟩ 0).2 ⟨[], []⟩) 0 =
      some ⟨["a"], [(0, [1])]⟩ ∧
    Store.readFrame (dframeStore ⟨[⟨["a"], [(0, [1])]⟩]⟩ 0).1
      (dframeStore ⟨[⟨["a"], [(0, [1])]⟩]⟩ 0).2 = some ⟨["a"], [(0, [1])]⟩ :=
  dframe_copy_isolated ⟨[⟨["a"], [(0, [1])]⟩]⟩ 0 ⟨["a"], [(0, [1])]⟩ ⟨[], []⟩ (by decide)

/-- Appending values for one fixed key into a collation that already holds
only that key extends the stored list in order. -/
theorem foldl_addToKey_const {E : Type} (keyf : E → DKey) (valf : E → Int) (k : DKey) :
    ∀ (es : List E) (vs : List Int), (∀ e ∈ es, keyf e = k) →
      es.foldl (fun acc e => addToKey acc (keyf e) (valf e)) [(k, vs)] =
        [(k, vs ++ es.map valf)] := by
  intro es
  induction es with
  | nil => intro vs _; simp
  | cons e rest ih =>
    intro vs hk
    have hke : keyf e = k := hk e (by simp)
    simp only [List.foldl_cons, hke]
    have hstep : addToKey [(k, vs)] k (valf e) = [(k, vs ++ [valf e])] := by
      simp [addToKey]
    rw [hstep, ih (vs ++ [valf e]) (fun e2 he2 => hk e2 (by simp [he2]))]
    simp

/-- The whole collation of the reduce branch, when every row carries the
same key: a single entry holding all values in row order. -/
theorem collate_const {E : Type} (keyf : E → DKey) (valf : E → Int) (k : DKey) :
    ∀ es : List E, es ≠ [] → (∀ e ∈ es, keyf e = k) →
      es.foldl (fun acc e => addToKey acc (keyf e) (valf e)) [] = [(k, es.map valf)] := by
  intro es hne hk
  cases es with
  | nil => exact absurd rfl hne
  | cons e rest =>
    have hke : keyf e = k := hk e (by simp)
    simp only [List.foldl_cons, addToKey, hke]
    rw [foldl_addToKey_const keyf valf k rest [valf e]
      (fun e2 he2 => hk e2 (by simp [he2]))]
    simp

/-- Claim C4: an export with reduce_fn sum over a group in which every row
carries the same view dimension key yields exactly one entry whose value
is the arithmetic sum of the value column, and the indices argument has no
effect on the result of the reduce branch. -/
theorem export_reduce_sum_single_entry (group : DataFrame) (value_dim : String)
    (view_dims : List String) (indices : List Int) (valIdx : Nat) (vdimInds : List Nat)
    (k : DKey)
    (hvi : group.columns.findIdx? (fun c => c == value_dim) = some valIdx)
    (hvd : view_dims.mapM (fun d => group.columns.findIdx? (fun c => c == d)) = some vdimInds)
    (hne : group.entries ≠ [])
    (hk : ∀ e ∈ group.entries, rowKeyOf value_dim view_dims vdimInds e.2 = k) :
    exportGroup group value_dim indices (some List.sum) view_dims =
      some [(k, (group.entries.map (fun e => e.2.getD valIdx 0)).sum)] ∧
    (∀ indices2, exportGroup group value_dim indices2 (some List.sum) view_dims =
      exportGroup group value_dim indices (some List.sum) view_dims) := by
  refine ⟨?_, fun _ => rfl⟩
  show reduceBranch group value_dim view_dims List.sum = _
  unfold reduceBranch
  rw [hvi, hvd]
  simp only []
  rw [collate_const (fun e : Int × List Int => rowKeyOf value_dim view_dims vdimInds e.2)
    (fun e : Int × List Int => e.2.getD valIdx 0) k group.entries hne hk]
  simp

/-- Concrete instance of claim C4: three rows with the same view key 7 and
values 1, 2, 3 reduce to the single entry (7) with value 6, whatever the
indices argument holds. -/
theorem export_reduce_sum_single_entry_witness :
    exportGroup (DataFrame.mk ["a", "v"] [(0, [7, 1]), (1, [7, 2]), (2, [7, 3])])
      "v" [] (some List.sum) ["a"] = some [(DKey.tup [7], 6)] ∧
    exportGroup (DataFrame.mk ["a", "v"] [(0, [7, 1]), (1, [7, 2]), (2, [7, 3])])
      "v" [99] (some List.sum) ["a"] =
    exportGroup (DataFrame.mk ["a", "v"] [(0, [7, 1]), (1, [7, 2]), (2, [7, 3])])
      "v" [] (some List.sum) ["a"] :=
  ⟨(export_reduce_sum_single_entry
      (DataFrame.mk ["a", "v"] [(0, [7, 1]), (1, [7, 2]), (2, [7, 3])])
      "v" ["a"] [] 1 [0] (DKey.tup [7]) (by decide) (by decide) (by decide)
      (by decide)).1.trans (by decide),
   (export_reduce_sum_single_entry
      (DataFrame.mk ["a", "v"] [(0, [7, 1]), (1, [7, 2]), (2, [7, 3])])
      "v" ["a"] [] 1 [0] (DKey.tup [7]) (by decide) (by decide) (by decide)
      (by decide)).2 [99]⟩

/-- Ordered dict assignment with a key absent from the dict appends. -/
theorem odInsert_fresh (k : DKey) (v : Int) :
    ∀ acc : List (DKey × Int), (∀ p ∈ acc, p.1 ≠ k) →
      odInsert acc k v = acc ++ [(k, v)] := by
  intro acc
  induction acc with
  | nil => intro _; rfl
  | cons q rest ih =>
    intro h
    obtain ⟨k0, v0⟩ := q
    have hne : k0 ≠ k := h (k0, v0) (by simp)
    simp only [odInsert, if_neg hne, List.cons_append, List.cons.injEq, true_and]
    exact ih (fun q2 hq2 => h q2 (by simp [hq2]))

/-- A key built from a nonempty component list survives the unwrapping and
keeps its leading component. -/
theorem mkKey_cons_head (ind : Int) (kl : List Int) :
    ∃ k, mkKey (ind :: kl) = some k ∧ keyHead k = some ind := by
  cases kl with
  | nil => exact ⟨.int ind, rfl, rfl⟩
  | cons a rest => exact ⟨.tup (ind :: a :: rest), rfl, rfl⟩

/-- Invariant of the index loop with the leading Index component switched
on: over pairwise distinct row labels the loop only ever appends, so the
dict ends with one entry per label, pairwise distinct keys, and every new
key leads with one of the labels. -/
theorem indexLoop_addIdx_invariant (g : DataFrame) (value_dim : String)
    (view_dims : List String) :
    ∀ (l : List Int) (acc m : List (DKey × Int)),
      indexLoop g value_dim view_dims true l acc = some m →
      l.Nodup →
      (∀ p ∈ acc, ∀ ind ∈ l, keyHead p.1 ≠ some ind) →
      (acc.map Prod.fst).Nodup →
      m.length = acc.length + l.length ∧
      (m.map Prod.fst).Nodup ∧
      (∀ p ∈ m, p ∈ acc ∨ ∃ ind ∈ l, keyHead p.1 = some ind) := by
  intro l
  induction l with
  | nil =>
    intro acc m hm _ _ haccnd
    simp only [indexLoop, Option.some.injEq] at hm
    subst hm
    exact ⟨by simp, haccnd, fun p hp => Or.inl hp⟩
  | cons ind rest ih =>
    intro acc m hm hnd hheads haccnd
    rw [indexLoop] at hm
    split at hm
    · exact absurd hm (by simp)
    · rename_i row hlr
      split at hm
      · exact absurd hm (by simp)
      · rename_i kl0 hmm
        rw [if_pos rfl] at hm
        split at hm
        · exact absurd hm (by simp)
        · rename_i k hk
          have hkh : keyHead k = some ind := by
            obtain ⟨k3, hk3, hkh3⟩ := mkKey_cons_head ind kl0
            rw [hk] at hk3
            exact (Option.some.inj hk3) ▸ hkh3
          split at hm
          · exact absurd hm (by simp)
          · rename_i v hcv
            have hfresh : ∀ p ∈ acc, p.1 ≠ k := by
              intro p hp heq
              exact hheads p hp ind (by simp) (heq ▸ hkh)
            rw [odInsert_fresh k v acc hfresh] at hm
            have hnd2 : rest.Nodup := (List.nodup_cons.mp hnd).2
            have hnotin : ind ∉ rest := (List.nodup_cons.mp hnd).1
            have hheads2 : ∀ p ∈ acc ++ [(k, v)], ∀ i2 ∈ rest, keyHead p.1 ≠ some i2 := by
              intro p hp i2 hi2
              rcases List.mem_append.mp hp with hpa | hpk
              · exact hheads p hpa i2 (by simp [hi2])
              · simp only [List.mem_singleton] at hpk
                subst hpk
                intro hcon
                rw [hkh] at hcon
                exact hnotin (Option.some.inj hcon ▸ hi2)
            have haccnd2 : ((acc ++ [(k, v)]).map Prod.fst).Nodup := by
              rw [List.map_append]
              refine List.Nodup.append haccnd (by simp) ?_
              intro a ha hb
              simp only [List.map_cons, List.map_nil, List.mem_singleton] at hb
              subst hb
              obtain ⟨p, hp, hpk⟩ := List.mem_map.mp ha
              exact hfresh p hp hpk
            obtain ⟨hlen, hmnd, hmem⟩ := ih (acc ++ [(k, v)]) m hm hnd2 hheads2 haccnd2
            refine ⟨?_, hmnd, ?_⟩
            · rw [hlen]
              have hacc1 : (acc ++ [(k, v)]).length = acc.length + 1 := by simp
              rw [hacc1, List.length_cons]
              omega
            · intro p hp
              rcases hmem p hp with hpacc | ⟨i2, hi2, hkh2⟩
              · rcases List.mem_append.mp hpacc with h1 | h2
                · exact Or.inl h1
                · simp only [List.mem_singleton] at h2
                  subst h2
                  exact Or.inr ⟨ind, by simp, hkh⟩
              · exact Or.inr ⟨i2, by simp [hi2], hkh2⟩

/-- Claim C3: with reduce_fn absent and more than one (or zero) selected
index, every selected row gets its own distinct entry in the export dict:
the dict has exactly one entry per effective index, distinct keys, and
every key leads with one of the row identifiers; no row is dropped even
when view dimension values coincide. -/
theorem export_rows_distinct_keys (g : DataFrame) (value_dim : String)
    (view_dims : List String) (indices : List Int) (m : List (DKey × Int))
    (hm : indexBranch g value_dim view_dims indices = some m)
    (hnd : (effectiveIndices indices g).Nodup)
    (hlen : (effectiveIndices indices g).length ≠ 1) :
    m.length = (effectiveIndices indices g).length ∧
    (m.map Prod.fst).Nodup ∧
    (∀ p ∈ m, ∃ ind ∈ effectiveIndices indices g, keyHead p.1 = some ind) := by
  unfold indexBranch at hm
  have hb : (!((effectiveIndices indices g).length == 1)) = true := by
    simp only [Bool.not_eq_true', beq_eq_false_iff_ne, ne_eq]
    exact hlen
  rw [hb] at hm
  obtain ⟨h1, h2, h3⟩ := indexLoop_addIdx_invariant g value_dim view_dims
    (effectiveIndices indices g) [] m hm hnd (by simp) (by simp)
  refine ⟨by simpa using h1, h2, fun p hp => ?_⟩
  rcases h3 p hp with hfalse | hex
  · simp at hfalse
  · exact hex

/-- Concrete instance of claim C3: two rows with identical view dimension
value 5 and empty indices give two distinct keys, each led by a row
identifier. -/
theorem export_rows_distinct_keys_witness :
    ([(DKey.tup [0, 5], 10), (DKey.tup [1, 5], 20)] : List (DKey × Int)).length =
      (effectiveIndices [] (DataFrame.mk ["a", "v"] [(0, [5, 10]), (1, [5, 20])])).length ∧
    (([(DKey.tup [0, 5], 10), (DKey.tup [1, 5], 20)] : List (DKey × Int)).map Prod.fst).Nodup ∧
    (∀ p ∈ ([(DKey.tup [0, 5], 10), (DKey.tup [1, 5], 20)] : List (DKey × Int)),
      ∃ ind ∈ effectiveIndices [] (DataFrame.mk ["a", "v"] [(0, [5, 10]), (1, [5, 20])]),
        keyHead p.1 = some ind) :=
  export_rows_distinct_keys (DataFrame.mk ["a", "v"] [(0, [5, 10]), (1, [5, 20])])
    "v" ["a"] [] [(DKey.tup [0, 5], 10), (DKey.tup [1, 5], 20)]
    (by decide) (by decide) (by decide)
